import Mathlib

set_option maxHeartbeats 1000000

/-!
Verification development for the legal-ai-assistant repository:
the rule-document-to-program compiler and tiered fallback query resolver
described in `src/backend/SCASP_LOGIC.md`, and the frontend response parser
`src/frontend/src/utils/responseParser.ts`.

Raw text is represented as `List Char`; machine reals (confidences) as `ℚ`.
-/

/-! ## Character and list-of-characters utilities -/

/-- Whitespace characters, as matched by a whitespace class or `strip`. -/
def isWsC (c : Char) : Bool :=
  c == ' ' || c == '\t' || c == '\n' || c == '\r' || c == '\x0b' || c == '\x0c'

/-- JSON whitespace (the four characters JSON.parse skips between tokens). -/
def isJsonWsC (c : Char) : Bool :=
  c == ' ' || c == '\t' || c == '\n' || c == '\r'

/-- `startsWithC pat l` : `l` begins with the character sequence `pat`. -/
def startsWithC : List Char → List Char → Bool
  | [], _ => true
  | _ :: _, [] => false
  | p :: ps, c :: cs => p == c && startsWithC ps cs

/-- `endsWithC pat l` : `l` ends with the character sequence `pat`. -/
def endsWithC (pat l : List Char) : Bool :=
  startsWithC pat.reverse l.reverse

/-- `containsSub pat l` : `pat` occurs as a contiguous substring of `l`
(the embedding of Python `pat in l` / JS `l.includes(pat)`). -/
def containsSub (pat : List Char) : List Char → Bool
  | [] => startsWithC pat []
  | c :: cs => startsWithC pat (c :: cs) || containsSub pat cs

/-- Lower-case every character (the embedding of `.lower()` / `.toLowerCase()`). -/
def lowerL (l : List Char) : List Char :=
  l.map Char.toLower

/-- Strip whitespace from both ends (the embedding of `.strip()` / `.trim()`). -/
def trimChars (l : List Char) : List Char :=
  ((l.dropWhile isWsC).reverse.dropWhile isWsC).reverse

/-- Count (possibly overlapping) occurrences of `pat` in `l`. -/
def countSub (pat : List Char) : List Char → Nat
  | [] => 0
  | c :: cs => (if startsWithC pat (c :: cs) then 1 else 0) + countSub pat cs

/-! ## Backend data model (from `SCASP_LOGIC.md`)

`ScaspAnswer` embeds the `ScaspAnswer` dataclass visible in
`_parse_prolog_output` (fields `solution`, `justification`, `confidence`,
`is_consistent`); `TierOutcome` embeds the per-attempt result dict
(key `success`) together with the answers / error-message payload of
`ScaspResult`. -/

structure ScaspAnswer where
  solution : List (List Char × List Char)
  justification : List (List Char)
  confidence : ℚ
  is_consistent : Bool
deriving DecidableEq

structure TierOutcome where
  success : Bool
  answers : List ScaspAnswer
  error_message : Option (List Char)
deriving DecidableEq

/-- The `skip_patterns` list of `_create_simplified_program`
(SCASP_LOGIC.md lines 102–107), verbatim. -/
def skip_patterns : List (List Char) :=
  [("#pred").data, ("blawx_").data, ("holds(").data, ("according_to(").data,
   ("blawx_defeated(").data, ("blawx_initially(").data, ("blawx_ultimately(").data,
   ("blawx_as_of(").data, ("blawx_during(").data, ("blawx_becomes(").data,
   ("blawx_not_interrupted(").data]

/-- The "Basic Legal Facts Added" block of SCASP_LOGIC.md lines 113–128,
as a list of program lines, verbatim. -/
def basic_legal_facts : List (List Char) :=
  [("% Basic legal facts for Canadian law").data,
   ("canadian_citizen(citizen).").data,
   ("government_institution(health_canada).").data,
   ("government_institution(revenue_agency).").data,
   ("access_right(citizen, government_record).").data,
   ("").data,
   ("% Basic access rules").data,
   ("can_request_records(Person, Institution) :-").data,
   ("    canadian_citizen(Person),").data,
   ("    government_institution(Institution).").data,
   ("").data,
   ("eligible_for_access(Person) :-").data,
   ("    canadian_citizen(Person).").data]

/-- A program line hits the denylist when one of the deny patterns occurs in
it, which is how `skip_patterns` entries (predicate name-prefixes such as
`blawx_`, or a name with its opening parenthesis such as `holds(`) mark a
line as referencing a denylisted predicate. -/
def matches_deny (deny : List (List Char)) (line : List Char) : Bool :=
  deny.any (fun d => containsSub d line)

/-- A text line that belongs to the Facts partition: non-empty, not a
`%` comment, period-terminated, and not a rule (no `:-`). -/
def is_fact_line (l : List Char) : Bool :=
  !(trimChars l).isEmpty && !startsWithC (("%").data) (trimChars l) &&
    endsWithC ((".").data) (trimChars l) && !containsSub ((":-").data) (trimChars l)

/-- Modelled from the spec: the body of `_create_simplified_program` is not in
src (SCASP_LOGIC.md lines 98–111 give only its `skip_patterns` and the
comments "Keep only basic facts and rules" / "Add fundamental legal facts if
program becomes too sparse"). Per spec §4.3: remove every record hitting the
denylist; if the remaining Facts partition has fewer than `minFacts` records,
append the baseline fact set. The program is a list of text lines. -/
def create_simplified_program (deny : List (List Char)) (minFacts : Nat)
    (baseline : List (List Char)) (prog : List (List Char)) : List (List Char) :=
  if (((prog.filter (fun l => !matches_deny deny l)).filter is_fact_line).length < minFacts) then
    prog.filter (fun l => !matches_deny deny l) ++ baseline
  else prog.filter (fun l => !matches_deny deny l)

/-- Health-Canada heuristic pattern of `_create_fallback_response`
(SCASP_LOGIC.md lines 139–142), on the lower-cased query text. -/
def health_match (ql : List Char) : Bool :=
  (containsSub (("health_canada").data) ql || containsSub (("health").data) ql ||
    containsSub (("canada").data) ql) &&
  (containsSub (("canadian_citizen").data) ql || containsSub (("citizen").data) ql)

/-- General access-to-information heuristic pattern of
`_create_fallback_response` (SCASP_LOGIC.md lines 144–146). -/
def access_match (ql : List Char) : Bool :=
  containsSub (("request").data) ql || containsSub (("access").data) ql ||
    containsSub (("record").data) ql

/-- Modelled from the spec: the body of `intelligent_health_canada_response()`
is not in src; SCASP_LOGIC.md line 141 only shows that a successful
contextual response is returned. -/
def health_canada_response : TierOutcome :=
  ⟨true, [⟨[], [("Heuristic: a Canadian citizen may request records from Health Canada").data],
    (1 : ℚ) / 2, true⟩], none⟩

/-- Modelled from the spec: the body of `general_access_response()` is not in
src; SCASP_LOGIC.md line 146 only shows that a successful contextual
response is returned. -/
def general_access_response : TierOutcome :=
  ⟨true, [⟨[], [("Heuristic: access to government records is generally available").data],
    (1 : ℚ) / 2, true⟩], none⟩

/-- The generic total-failure error message of SCASP_LOGIC.md lines 176–181. -/
def unable_message : List Char :=
  ("Unable to process complex legal query with available reasoning engine").data

/-- `_create_fallback_response` (SCASP_LOGIC.md lines 134–147): lower-case the
query text, try the Health-Canada pattern, then the general-access pattern;
with no pattern match, return the failure `ScaspResult` of lines 176–181
(success=False, the fixed generic `error_message`). -/
def create_fallback_response (q : List Char) (_program : List (List Char)) : TierOutcome :=
  let ql := lowerL q
  if health_match ql then health_canada_response
  else if access_match ql then general_access_response
  else ⟨false, [], some unable_message⟩

/-! ## Tier Controller (`query`, SCASP_LOGIC.md lines 69–83)

The external engine invocations `_query_scasp` / `_query_prolog` have no body
in src; they are abstracted as a function from (program, query) to a
`TierOutcome`. The embedding additionally records the trace of attempts so
that temporal claims about tier ordering can be stated. -/

inductive EngineId where
  | scasp
  | prolog
deriving DecidableEq

inductive Tier where
  | full
  | simplified
  | fallback
deriving DecidableEq

/-- What a tier attempt actually does: a Backend Adapter invocation of an
engine on a program, or the heuristic `_create_fallback_response`. -/
inductive TierAction where
  | engineCall (engine : EngineId) (program : List (List Char))
  | heuristic (q : List Char) (program : List (List Char))
deriving DecidableEq

/-- `query` (SCASP_LOGIC.md lines 69–83), the three-tier variant: try the full
program with s(CASP); if it fails, try the simplified program with s(CASP);
if that fails, generate the heuristic fallback response. Returns the trace of
attempts and the final outcome. -/
def scaspQuery (scaspE : List (List Char) → List Char → TierOutcome) (minFacts : Nat)
    (program : List (List Char)) (q : List Char) : List (Tier × TierAction) × TierOutcome :=
  let r1 := scaspE program q
  if r1.success = true then ([(Tier.full, TierAction.engineCall EngineId.scasp program)], r1)
  else
    let sp := create_simplified_program skip_patterns minFacts basic_legal_facts program
    let r2 := scaspE sp q
    if r2.success = true then
      ([(Tier.full, TierAction.engineCall EngineId.scasp program),
        (Tier.simplified, TierAction.engineCall EngineId.scasp sp)], r2)
    else
      ([(Tier.full, TierAction.engineCall EngineId.scasp program),
        (Tier.simplified, TierAction.engineCall EngineId.scasp sp),
        (Tier.fallback, TierAction.heuristic q program)],
       create_fallback_response q program)

/-- `query` (SCASP_LOGIC.md lines 414–424), the two-tier variant: try the full
program with s(CASP); if it fails and SWI-Prolog is available, run SWI-Prolog
on the same (full) program. -/
def scaspQueryV2 (scaspE prologE : List (List Char) → List Char → TierOutcome)
    (hasProlog : Bool) (program : List (List Char)) (q : List Char) :
    List (EngineId × List (List Char)) × TierOutcome :=
  let r1 := scaspE program q
  if r1.success = true then ([(EngineId.scasp, program)], r1)
  else if hasProlog then
    ([(EngineId.scasp, program), (EngineId.prolog, program)], prologE program q)
  else ([(EngineId.scasp, program)], r1)

/-! ## Result Interpreter -/

/-- The single answer synthesized by `_parse_prolog_output` on success
(SCASP_LOGIC.md lines 360–365): empty bindings, one generic justification
line, confidence 0.8, consistent. -/
def prolog_success_answer : ScaspAnswer :=
  ⟨[], [("Prolog query succeeded").data], (4 : ℚ) / 5, true⟩

/-- `_parse_prolog_output` (SCASP_LOGIC.md lines 354–368): if `'true'` or
`'yes'` occurs in the lower-cased raw output, synthesize the single generic
answer; otherwise return the empty answer list. No error value of any kind
is produced — the function's result is just the list. -/
def parse_prolog_output (output : List Char) : List ScaspAnswer :=
  if containsSub (("true").data) (lowerL output) = true ||
      containsSub (("yes").data) (lowerL output) = true then
    [prolog_success_answer]
  else []

/-- Error taxonomy of spec §7 (the subset needed by the Result Interpreter
claims). -/
inductive ScaspError where
  | engineNotFound
  | timeout
  | nonZeroExit
  | processError
  | unparsableOutput
  | cancelled
deriving DecidableEq

/-- The Result Interpreter contract as the claim states it (spec §4.5), for
the fallback engine's dialect: output matching the dialect's expected shape
(the success markers) yields the synthesized answer and no error; output that
does not match yields zero Answers together with an explicit
`UnparsableOutput` error. This definition follows the claim's words, to be
compared with `parse_prolog_output` from the source. -/
def interpret_fallback_claimed (output : List Char) : List ScaspAnswer × Option ScaspError :=
  if containsSub (("true").data) (lowerL output) = true ||
      containsSub (("yes").data) (lowerL output) = true then
    ([prolog_success_answer], none)
  else ([], some ScaspError.unparsableOutput)

/-- Modelled from the spec: the confidence configuration of §4.5/§9
(`_calculate_confidence` is not in src). `base` is the configured base value
for the primary dialect, `step` the downward adjustment per unresolved
uncertainty marker, `primaryMin` the primary engine's minimum achievable
confidence (the floor of the adjustment). -/
structure ConfidenceConfig where
  base : ℚ
  step : ℚ
  primaryMin : ℚ

/-- Modelled from the spec: a well-formed confidence configuration per §4.5
and §9 — base and floor lie in [0,1] with the floor below the base, the
per-marker adjustment is non-negative, and the fallback engine's fixed
confidence 0.8 (the constant of `_parse_prolog_output`) does not exceed the
primary engine's minimum achievable confidence. -/
def ConfidenceConfig.wellFormed (c : ConfidenceConfig) : Prop :=
  0 ≤ c.primaryMin ∧ c.primaryMin ≤ c.base ∧ c.base ≤ 1 ∧ 0 ≤ c.step ∧
    (4 : ℚ) / 5 ≤ c.primaryMin

/-- Modelled from the spec: the unresolved-uncertainty marker of §4.5 whose
occurrences adjust the primary confidence downward (negation-as-failure
markers in s(CASP) justifications). -/
def uncertainty_marker : List Char := ("not ").data

/-- Modelled from the spec: `_calculate_confidence` (not in src) per §4.5 —
the configured base value adjusted downward per unresolved uncertainty
marker, floored at the primary engine's minimum achievable confidence. -/
def calculate_confidence (cfg : ConfidenceConfig) (block : List Char) : ℚ :=
  max cfg.primaryMin (cfg.base - cfg.step * (countSub uncertainty_marker block : ℚ))

/-- Split a character list at newline characters. -/
def splitLines (l : List Char) : List (List Char) :=
  l.foldr (fun c acc =>
    match acc with
    | [] => if c = '\n' then [[], []] else [[c]]
    | cur :: rest => if c = '\n' then [] :: (cur :: rest) else (c :: cur) :: rest) []

/-- Modelled from the spec: the primary (s(CASP)) dialect parser is not in
src; per §4.5 it extracts one Answer per structured solution block, with
confidence derived by `calculate_confidence` (binding extraction does not
enter any claim and is left empty, the block text standing as the
justification). Solution blocks are the non-empty output lines. -/
def parse_scasp_output (cfg : ConfidenceConfig) (output : List Char) : List ScaspAnswer :=
  ((splitLines output).filter (fun l => !l.isEmpty)).map
    (fun block => ⟨[], [block], calculate_confidence cfg block, true⟩)

/-! ## Document Parser -/

/-- Modelled from the spec: a bare constraint fragment lacking a head
(SCASP_LOGIC.md lines 163–165, e.g. `Age #>= 14`): a `#`-constraint operator
with no enclosing rule. -/
def is_bare_constraint (l : List Char) : Bool :=
  (containsSub (("#>").data) l || containsSub (("#<").data) l ||
    containsSub (("#=").data) l) && !containsSub ((":-").data) l

/-- Modelled from the spec: `_parse_scasp_line`'s validation and cleaning is
not in src (SCASP_LOGIC.md lines 58–63 list only its effects). Per spec
§4.1/§6: strip the line; reject it when empty, when it ends in a malformed
double terminator, when a dangling clause-separator stands directly before
the terminator (`age(Person,Age),.`), when stripping the terminator leaves a
dangling separator or terminator, or when it is a bare constraint fragment;
otherwise normalize to a single-period-terminated clause.
`rule_core` is the stripped clause body with its terminator (if any)
removed. -/
def rule_core (raw : List Char) : List Char :=
  trimChars (if endsWithC ['.'] (trimChars raw) = true then (trimChars raw).dropLast
    else trimChars raw)

/-- Modelled from the spec: the acceptance decision of `_parse_scasp_line`
(see `rule_core`): reject empty lines, double terminators, dangling
separators and bare constraint fragments; accept everything else normalized
to `rule_core raw ++ [the terminator]`. -/
def clean_rule_line (raw : List Char) : Option (List Char) :=
  if (trimChars raw).isEmpty = true then none
  else if endsWithC ['.', '.'] (trimChars raw) = true then none
  else if endsWithC [',', '.'] (trimChars raw) = true then none
  else if (rule_core raw).isEmpty = true then none
  else if ((rule_core raw).getLast? = some '.' ∨ (rule_core raw).getLast? = some ',') then none
  else if is_bare_constraint (rule_core raw) = true then none
  else some (rule_core raw ++ ['.'])

inductive RuleKind where
  | fact
  | rule
  | abducible
  | query
deriving DecidableEq

/-- Modelled from the spec: classification by leading syntactic marker
(spec §6): `?-` introduces a query, `#abducible` an abducible, a clause with
`:-` is a rule, anything else a fact. -/
def classify_kind (t : List Char) : RuleKind :=
  if startsWithC (("?-").data) t = true then RuleKind.query
  else if startsWithC (("#abducible").data) t = true then RuleKind.abducible
  else if containsSub ((":-").data) t = true then RuleKind.rule
  else RuleKind.fact

/-- One parsed logic statement (spec §3 RuleRecord; the fields entering the
claims). -/
structure RuleRecord where
  kind : RuleKind
  raw_text : List Char
  normalized_text : List Char
deriving DecidableEq

/-- Modelled from the spec: the Document Parser loop (spec §4.1) — clean each
line; an accepted line becomes a RuleRecord, a rejected line is dropped with
a recorded diagnostic (the offending line). Total: it always returns the
built record list and diagnostics, never a fatal failure. -/
def parse_document : List (List Char) → List RuleRecord × List (List Char)
  | [] => ([], [])
  | l :: ls =>
    let rest := parse_document ls
    match clean_rule_line l with
    | some t => (⟨classify_kind t, l, t⟩ :: rest.1, rest.2)
    | none => (rest.1, l :: rest.2)

/-! ## Program Formatter (`format_scasp_program`, SCASP_LOGIC.md lines 48–56) -/

/-- The `ScaspRule` records handled by `format_scasp_program`: a `rule_type`
string tag (`'fact'`, `'rule'`, `'abducible'`, `'query'`) and the rule
text. -/
structure ScaspRule where
  rule_type : List Char
  text : List Char
deriving DecidableEq

/-- `format_scasp_program` (SCASP_LOGIC.md lines 48–56): partition the rules
by `rule_type` with order-preserving comprehensions; the partitions are
emitted in the fixed order facts, logic rules, abducibles, queries (spec
§4.2 — the snippet shows the partitions in this order; the program text is
their concatenation). -/
def format_scasp_program (rules : List ScaspRule) : List ScaspRule :=
  let facts := rules.filter (fun r => r.rule_type == ("fact").data)
  let logic_rules := rules.filter (fun r => r.rule_type == ("rule").data)
  let abducibles := rules.filter (fun r => r.rule_type == ("abducible").data)
  let queries := rules.filter (fun r => r.rule_type == ("query").data)
  facts ++ logic_rules ++ abducibles ++ queries

/-- Rank of a rule kind in the emission order of `format_scasp_program`. -/
def kind_rank (r : ScaspRule) : Nat :=
  if r.rule_type == ("fact").data then 0
  else if r.rule_type == ("rule").data then 1
  else if r.rule_type == ("abducible").data then 2
  else if r.rule_type == ("query").data then 3
  else 4

/-! ## Frontend: JSON values and `JSON.parse`

`parseResponseContent` (responseParser.ts lines 12–48) calls `JSON.parse`;
the embedding supplies a concrete JSON parser over `List Char` standing for
it: values are objects, arrays, strings, numbers, booleans and null; parsing
fails (`none` standing for a thrown exception) on input that is not a single
JSON value. -/

inductive Json where
  | null
  | bool (b : Bool)
  | num (q : ℚ)
  | str (s : List Char)
  | arr (elems : List Json)
  | obj (fields : List (List Char × Json))

/-- A JSON string body after the opening quote: returns the decoded content
and the remainder after the closing quote. Raw control characters are
rejected, escapes are decoded. -/
def pString : List Char → Option (List Char × List Char)
  | [] => none
  | '"' :: r => some ([], r)
  | '\\' :: e :: r =>
    if e = '"' then (pString r).map (fun p => ('"' :: p.1, p.2))
    else if e = '\\' then (pString r).map (fun p => ('\\' :: p.1, p.2))
    else if e = '/' then (pString r).map (fun p => ('/' :: p.1, p.2))
    else if e = 'b' then (pString r).map (fun p => ('\x08' :: p.1, p.2))
    else if e = 'f' then (pString r).map (fun p => ('\x0c' :: p.1, p.2))
    else if e = 'n' then (pString r).map (fun p => ('\n' :: p.1, p.2))
    else if e = 'r' then (pString r).map (fun p => ('\r' :: p.1, p.2))
    else if e = 't' then (pString r).map (fun p => ('\t' :: p.1, p.2))
    else if e = 'u' then
      match r with
      | a :: b :: c :: d :: r2 =>
        if a.isDigit && b.isDigit && c.isDigit && d.isDigit then
          (pString r2).map (fun p =>
            (Char.ofNat ((a.toNat - 48) * 4096 + (b.toNat - 48) * 256 +
              (c.toNat - 48) * 16 + (d.toNat - 48)) :: p.1, p.2))
        else none
      | _ => none
    else none
  | c :: r =>
    if c.toNat < 32 then none
    else (pString r).map (fun p => (c :: p.1, p.2))

/-- Digits prefix of a character list, as a natural number with its length. -/
def pDigits : List Char → Nat → Nat → Nat × Nat × List Char
  | c :: cs, acc, n =>
    if c.isDigit then pDigits cs (acc * 10 + (c.toNat - 48)) (n + 1) else (acc, n, c :: cs)
  | [], acc, n => (acc, n, [])

/-- A JSON number: optional minus, integer part, optional fraction, optional
exponent; returns its rational value and the remainder. -/
def pNumber (cs : List Char) : Option (ℚ × List Char) :=
  let sign : ℚ × List Char := if cs.head? = some '-' then (-1, cs.drop 1) else (1, cs)
  match pDigits sign.2 0 0 with
  | (_, 0, _) => none
  | (ip, _, r1) =>
    let frac : ℚ × List Char :=
      if r1.head? = some '.' then
        match pDigits (r1.drop 1) 0 0 with
        | (_, 0, _) => ((ip : ℚ), r1)
        | (fp, fn, r2) => ((ip : ℚ) + (fp : ℚ) / ((10 : ℚ) ^ fn), r2)
      else ((ip : ℚ), r1)
    let withExp : Option (ℚ × List Char) :=
      if frac.2.head? = some 'e' ∨ frac.2.head? = some 'E' then
        let es : Bool × List Char :=
          if (frac.2.drop 1).head? = some '-' then (true, frac.2.drop 2)
          else if (frac.2.drop 1).head? = some '+' then (false, frac.2.drop 2)
          else (false, frac.2.drop 1)
        match pDigits es.2 0 0 with
        | (_, 0, _) => none
        | (ev, _, r3) =>
          if es.1 then some (frac.1 / ((10 : ℚ) ^ ev), r3)
          else some (frac.1 * ((10 : ℚ) ^ ev), r3)
      else some frac
    withExp.map (fun p => (sign.1 * p.1, p.2))

/-- Pending container while parsing nested JSON. -/
inductive JFrame where
  | inArr (acc : List Json)
  | inObj (acc : List (List Char × Json)) (key : List Char)

/-- Parser machine state: about to read a value, or holding a completed
value. -/
inductive JState where
  | expectVal (cs : List Char)
  | haveVal (v : Json) (cs : List Char)

/-- One fuel-indexed run of the JSON parser machine. -/
def jrun : Nat → JState → List JFrame → Option (Json × List Char)
  | 0, _, _ => none
  | f + 1, JState.expectVal cs0, st =>
    match (cs0.dropWhile isJsonWsC) with
    | '{' :: r =>
      match (r.dropWhile isJsonWsC) with
      | '}' :: r2 => jrun f (JState.haveVal (Json.obj []) r2) st
      | '"' :: r2 =>
        match pString r2 with
        | some (k, r3) =>
          match (r3.dropWhile isJsonWsC) with
          | ':' :: r4 => jrun f (JState.expectVal r4) (JFrame.inObj [] k :: st)
          | _ => none
        | none => none
      | _ => none
    | '[' :: r =>
      match (r.dropWhile isJsonWsC) with
      | ']' :: r2 => jrun f (JState.haveVal (Json.arr []) r2) st
      | _ => jrun f (JState.expectVal r) (JFrame.inArr [] :: st)
    | '"' :: r =>
      match pString r with
      | some (s, r2) => jrun f (JState.haveVal (Json.str s) r2) st
      | none => none
    | 't' :: 'r' :: 'u' :: 'e' :: r => jrun f (JState.haveVal (Json.bool true) r) st
    | 'f' :: 'a' :: 'l' :: 's' :: 'e' :: r => jrun f (JState.haveVal (Json.bool false) r) st
    | 'n' :: 'u' :: 'l' :: 'l' :: r => jrun f (JState.haveVal Json.null r) st
    | other =>
      match pNumber other with
      | some (q, r) => jrun f (JState.haveVal (Json.num q) r) st
      | none => none
  | f + 1, JState.haveVal v cs0, st =>
    match st with
    | [] => some (v, cs0)
    | JFrame.inArr acc :: st2 =>
      match (cs0.dropWhile isJsonWsC) with
      | ',' :: r => jrun f (JState.expectVal r) (JFrame.inArr (acc ++ [v]) :: st2)
      | ']' :: r => jrun f (JState.haveVal (Json.arr (acc ++ [v])) r) st2
      | _ => none
    | JFrame.inObj acc k :: st2 =>
      match (cs0.dropWhile isJsonWsC) with
      | ',' :: r =>
        match (r.dropWhile isJsonWsC) with
        | '"' :: r2 =>
          match pString r2 with
          | some (k2, r3) =>
            match (r3.dropWhile isJsonWsC) with
            | ':' :: r4 => jrun f (JState.expectVal r4) (JFrame.inObj (acc ++ [(k, v)]) k2 :: st2)
            | _ => none
          | none => none
        | _ => none
      | '}' :: r => jrun f (JState.haveVal (Json.obj (acc ++ [(k, v)])) r) st2
      | _ => none

/-- The embedding of `JSON.parse`: parse one JSON value and require the rest
of the input to be whitespace; `none` stands for the thrown `SyntaxError`. -/
def jsonParse (cs : List Char) : Option Json :=
  match jrun (cs.length + 2) (JState.expectVal cs) [] with
  | some (v, rest) => if (rest.dropWhile isJsonWsC).isEmpty = true then some v else none
  | none => none

/-- JavaScript truthiness of a JSON value (`parsed && ...`). -/
def truthy : Json → Bool
  | Json.null => false
  | Json.bool b => b
  | Json.num q => !(q == 0)
  | Json.str s => !s.isEmpty
  | Json.arr _ => true
  | Json.obj _ => true

/-- Property access `parsed.k` on a JSON value: a field lookup on an object
(last occurrence wins, as in `JSON.parse`d duplicate keys), `undefined`
(`none`) on everything else. -/
def jGet : Json → List Char → Option Json
  | Json.obj fields, k =>
    fields.foldl (fun acc kv => if kv.1 == k then some kv.2 else acc) none
  | _, _ => none

/-- JavaScript `x || d` on a possibly-undefined JSON value (the
`parsed.legal_citations || []` defaulting). -/
def jsOr (x : Option Json) (d : Json) : Json :=
  match x with
  | some v => if truthy v then v else d
  | none => d

/-! ## Frontend: `parseResponseContent` (responseParser.ts lines 12–48) -/

/-- The `ParsedResponse` interface (responseParser.ts lines 3–10): `answer`
is a string; the optional fields hold whatever the code assigned (`none`
standing for `undefined`). -/
structure ParsedResponse where
  answer : List Char
  confidence : Option Json
  legal_citations : Option Json
  reasoning_steps : Option Json
  limitations : Option Json
  additional_info_needed : Option Json

/-- The backtick character. -/
def backtickC : Char := Char.ofNat 96

/-- The opening markdown fence `\x60\x60\x60json`. -/
def fenceJson : List Char := backtickC :: backtickC :: backtickC :: ("json").data

/-- `content.replace(/^\x60\x60\x60json\s*/, '')`: drop a leading
` ```json ` fence and the whitespace after it. -/
def stripFenceStart (cs : List Char) : List Char :=
  if startsWithC fenceJson cs = true then (cs.drop 7).dropWhile isWsC else cs

/-- `.replace(/\s*\x60\x60\x60$/, '')`: drop a trailing ` ``` ` fence and the
whitespace before it. -/
def stripFenceEnd (cs : List Char) : List Char :=
  if startsWithC [backtickC, backtickC, backtickC] cs.reverse = true then
    ((cs.reverse.drop 3).dropWhile isWsC).reverse
  else cs

/-- `.trim()`. -/
def jsTrim (cs : List Char) : List Char :=
  ((cs.dropWhile isWsC).reverse.dropWhile isWsC).reverse

/-- The markdown-stripped, trimmed content handed to `JSON.parse`
(responseParser.ts line 16). -/
def clean_content (content : List Char) : List Char :=
  jsTrim (stripFenceEnd (stripFenceStart content))

/-- The literal `"answer":` the extraction regex and the `includes` check
look for. -/
def answer_key : List Char := '"' :: ("answer\":").data

/-- The literal `"confidence":` of the second `includes` check. -/
def confidence_key : List Char := '"' :: ("confidence\":").data

/-- Capture of `[^"]*` up to the next `"`; `none` when no closing quote
exists. -/
def capture_to_quote : List Char → Option (List Char)
  | [] => none
  | '"' :: _ => some []
  | c :: cs => (capture_to_quote cs).map (fun t => c :: t)

/-- Try the answer regex `/"answer":\s*"([^"]*(?:\\.[^"]*)*)"/` anchored at
the front of `cs`. With greedy matching the capture is the text up to the
first unquoted `"` after the opening quote. -/
def try_answer_at (cs : List Char) : Option (List Char) :=
  if startsWithC answer_key cs = true then
    match ((cs.drop 9).dropWhile isWsC) with
    | '"' :: r => capture_to_quote r
    | _ => none
  else none

/-- `content.match(/"answer":\s*"([^"]*(?:\\.[^"]*)*)"/)`: the leftmost
successful match's capture. -/
def regex_answer : List Char → Option (List Char)
  | [] => none
  | c :: cs =>
    match try_answer_at (c :: cs) with
    | some cap => some cap
    | none => regex_answer cs

/-- `.replace(/\\"/g, '"')` on the captured text. -/
def unescape_quote : List Char → List Char
  | '\\' :: '"' :: cs => '"' :: unescape_quote cs
  | c :: cs => c :: unescape_quote cs
  | [] => []

/-- `.replace(/\\n/g, '\n')` on the captured text. -/
def unescape_n : List Char → List Char
  | '\\' :: 'n' :: cs => '\n' :: unescape_n cs
  | c :: cs => c :: unescape_n cs
  | [] => []

/-- A ParsedResponse with only the `answer` set (the regex-extraction result
and the whole-content fallback shape). -/
def answer_only (a : List Char) : ParsedResponse :=
  ⟨a, none, none, none, none, none⟩

/-- The object built on the JSON success path (responseParser.ts lines
22–29): the string answer, `confidence` passed through, and the four list
fields defaulted to `[]` when absent or falsy. -/
def json_branch_result (parsed : Json) (a : List Char) : ParsedResponse :=
  ⟨a, jGet parsed (("confidence").data),
    some (jsOr (jGet parsed (("legal_citations").data)) (Json.arr [])),
    some (jsOr (jGet parsed (("reasoning_steps").data)) (Json.arr [])),
    some (jsOr (jGet parsed (("limitations").data)) (Json.arr [])),
    some (jsOr (jGet parsed (("additional_info_needed").data)) (Json.arr []))⟩

/-- `parseResponseContent` (responseParser.ts lines 12–48). Strip markdown
fences and trim; try `JSON.parse`: on success, if the value is truthy and its
`answer` field is a string, return the structured result — otherwise fall
through to returning the whole content (no exception was thrown, so the
catch-block regex path is not taken). If `JSON.parse` throws, look for an
`"answer":` / `"confidence":` fragment and regex-extract the answer text;
otherwise return the entire content as the answer. Total: every input yields
a ParsedResponse. -/
def parseResponseContent (content : List Char) : ParsedResponse :=
  match jsonParse (clean_content content) with
  | some parsed =>
    if truthy parsed = true then
      match jGet parsed (("answer").data) with
      | some (Json.str a) => json_branch_result parsed a
      | _ => answer_only content
    else answer_only content
  | none =>
    if containsSub answer_key content = true ∨ containsSub confidence_key content = true then
      match regex_answer content with
      | some cap => answer_only (unescape_n (unescape_quote cap))
      | none => answer_only content
    else answer_only content

/-- The claim's reading of `parseResponseContent`: if the markdown-stripped
content parses as JSON with a string `answer` field, the structured result is
returned; otherwise, if an `"answer":` fragment is regex-extractable from the
content, just that answer text is returned; otherwise the entire input is the
answer. This definition follows the claim's words, to be compared with
`parseResponseContent` from the source. -/
def parse_response_claimed (content : List Char) : ParsedResponse :=
  match jsonParse (clean_content content) with
  | some parsed =>
    match jGet parsed (("answer").data) with
    | some (Json.str a) => json_branch_result parsed a
    | _ =>
      match regex_answer content with
      | some cap => answer_only (unescape_n (unescape_quote cap))
      | none => answer_only content
  | none =>
    match regex_answer content with
    | some cap => answer_only (unescape_n (unescape_quote cap))
    | none => answer_only content

/-- The amended reading: the regex-extraction path is reached only when
`JSON.parse` throws; content that parses as JSON but lacks a truthy value
with a string `answer` field falls through to the whole-content answer. -/
def parse_response_amended (content : List Char) : ParsedResponse :=
  match jsonParse (clean_content content) with
  | some parsed =>
    match jGet parsed (("answer").data) with
    | some (Json.str a) =>
      if truthy parsed = true then json_branch_result parsed a else answer_only content
    | _ => answer_only content
  | none =>
    match regex_answer content with
    | some cap => answer_only (unescape_n (unescape_quote cap))
    | none => answer_only content

def jsonS0 : List Char :=
  '{' :: (("\"x\": ").data ++ ('{' :: (("\"answer\": \"hi\"").data ++ ['}', '}'])))

/-- An engine behavior that fails every invocation with a timeout message
(used to instantiate the abstract Backend Adapter in witnesses and
counterexamples). -/
def fail_engine : List (List Char) → List Char → TierOutcome :=
  fun _ _ => ⟨false, [], some (("timeout after 30 seconds").data)⟩

/-- A one-line test program. -/
def prog0 : List (List Char) := [("p(a).").data]

/-- A test query hitting none of the heuristic fallback patterns. -/
def q0 : List Char := ("is x eligible").data

/-- A concrete well-formed confidence configuration: base 0.9, per-marker
step 0.05, primary minimum 0.8. -/
def cfg0 : ConfidenceConfig := ⟨(9 : ℚ) / 10, (1 : ℚ) / 20, (4 : ℚ) / 5⟩

/-! ## Helper lemmas -/

theorem endsWithC_snoc (l : List Char) (c : Char) : endsWithC [c] (l ++ [c]) = true := by
  simp [endsWithC, List.reverse_append, startsWithC]

theorem endsWithC_pair_snoc (l : List Char) (a c : Char) :
    endsWithC [a, c] (l ++ [c]) = true ↔ l.getLast? = some a := by
  simp only [endsWithC, List.reverse_append, List.reverse_cons, List.reverse_nil,
    List.nil_append, List.cons_append, startsWithC, beq_self_eq_true, Bool.true_and]
  rw [← List.head?_reverse]
  cases hr : l.reverse with
  | nil => simp [startsWithC]
  | cons h t =>
    simp only [startsWithC, Bool.and_eq_true, beq_iff_eq, List.head?_cons, Option.some.injEq]
    constructor
    · intro hx
      exact hx.1.symm
    · intro hx
      exact ⟨hx.symm, trivial⟩

theorem endsWithC_pair_snoc_false (l : List Char) (a c : Char) (h : l.getLast? ≠ some a) :
    endsWithC [a, c] (l ++ [c]) = false := by
  cases hb : endsWithC [a, c] (l ++ [c])
  · rfl
  · exact absurd ((endsWithC_pair_snoc l a c).mp hb) h

theorem truthy_false_jGet (j : Json) (k : List Char) (h : truthy j = false) :
    jGet j k = none := by
  cases j <;> simp_all [truthy, jGet]

theorem regex_answer_contains (content cap : List Char)
    (h : regex_answer content = some cap) : containsSub answer_key content = true := by
  induction content with
  | nil => simp [regex_answer] at h
  | cons c cs ih =>
    rw [regex_answer] at h
    cases htry : try_answer_at (c :: cs) with
    | some cap2 =>
      have hstart : startsWithC answer_key (c :: cs) = true := by
        by_cases hs : startsWithC answer_key (c :: cs) = true
        · exact hs
        · rw [try_answer_at, if_neg hs] at htry; exact absurd htry (by simp)
      simp [containsSub, hstart]
    | none =>
      rw [htry] at h
      simp [containsSub, ih h]

theorem clean_rule_line_eq (raw t : List Char) (h : clean_rule_line raw = some t) :
    t = rule_core raw ++ ['.'] ∧ (rule_core raw).getLast? ≠ some '.' ∧
      (rule_core raw).getLast? ≠ some ',' := by
  rw [clean_rule_line] at h
  split_ifs at h with h1 h2 h3 h4 h5 h6
  exact ⟨(Option.some.inj h).symm, fun hc => h5 (Or.inl hc), fun hc => h5 (Or.inr hc)⟩

/-! ## Claim theorems -/

/-- Claim C5: every RuleRecord accepted by the Document Parser has a
`normalized_text` that ends in exactly one clause terminator (it ends with
`.` and not with `..`), and no accepted record has a dangling clause
separator immediately before its terminator (it does not end with `,.`);
lines violating this are rejected by `clean_rule_line` and therefore never
enter the record list that program assembly uses. -/
theorem accepted_records_terminated (lines : List (List Char)) :
    ∀ r ∈ (parse_document lines).1,
      endsWithC ['.'] r.normalized_text = true ∧
      endsWithC ['.', '.'] r.normalized_text = false ∧
      endsWithC [',', '.'] r.normalized_text = false := by
  induction lines with
  | nil => intro r hr; simp [parse_document] at hr
  | cons l ls ih =>
    intro r hr
    rw [parse_document] at hr
    cases hcl : clean_rule_line l with
    | some t =>
      rw [hcl] at hr
      rcases List.mem_cons.mp hr with hEq | hMem
      · obtain ⟨hteq, hnd, hnc⟩ := clean_rule_line_eq l t hcl
        subst hEq
        simp only [hteq]
        exact ⟨endsWithC_snoc _ _, endsWithC_pair_snoc_false _ _ _ hnd,
          endsWithC_pair_snoc_false _ _ _ hnc⟩
      · exact ih r hMem
    | none =>
      rw [hcl] at hr
      exact ih r hr

/-- Witness for C5 at a concrete document: the line `p(a)` is accepted with
normalized text `p(a).`, which ends in exactly one terminator. -/
theorem accepted_records_terminated_witness :
    (⟨RuleKind.fact, ("p(a)").data, ("p(a).").data⟩ : RuleRecord) ∈
      (parse_document [("p(a)").data]).1 ∧
    endsWithC ['.'] (("p(a).").data) = true ∧
    endsWithC ['.', '.'] (("p(a).").data) = false := by
  refine ⟨by decide, ?_⟩
  have h := accepted_records_terminated [("p(a)").data]
    ⟨RuleKind.fact, ("p(a)").data, ("p(a).").data⟩ (by decide)
  exact ⟨h.1, h.2.1⟩

/-- Claim C6: the Document Parser is total — every raw document yields a
parsed document; each malformed line (one `clean_rule_line` rejects) is
dropped and recorded as a diagnostic, while all remaining valid lines become
records in order. A malformed line is never a fatal failure of the whole
document. -/
theorem parser_recovers_malformed (lines : List (List Char)) :
    (parse_document lines).1.map RuleRecord.normalized_text = lines.filterMap clean_rule_line ∧
    (parse_document lines).2 = lines.filter (fun l => (clean_rule_line l).isNone) ∧
    ∀ l ∈ lines, clean_rule_line l = none → l ∈ (parse_document lines).2 := by
  induction lines with
  | nil => exact ⟨rfl, rfl, by intro l hl; simp at hl⟩
  | cons l ls ih =>
    obtain ⟨ih1, ih2, _⟩ := ih
    cases hcl : clean_rule_line l with
    | some t =>
      refine ⟨?_, ?_, ?_⟩
      · simp [parse_document, hcl, List.filterMap_cons, ih1]
      · simp [parse_document, hcl, ih2]
      · intro l2 hl2 hnone
        rcases List.mem_cons.mp hl2 with hEq | hMem
        · subst hEq; rw [hcl] at hnone; exact absurd hnone (by simp)
        · rw [parse_document, hcl]
          rw [ih2] at *
          exact List.mem_filter.mpr ⟨hMem, by simp [hnone]⟩
    | none =>
      refine ⟨?_, ?_, ?_⟩
      · simp [parse_document, hcl, List.filterMap_cons, ih1]
      · simp [parse_document, hcl, ih2]
      · intro l2 hl2 hnone
        rw [parse_document, hcl]
        rcases List.mem_cons.mp hl2 with hEq | hMem
        · subst hEq; exact List.mem_cons_self _ _
        · exact List.mem_cons_of_mem _ (by rw [ih2]; exact List.mem_filter.mpr ⟨hMem, by simp [hnone]⟩)

/-- Witness for C6 at the spec's example-1 scenario: a document with the
malformed line `age(Person,Age),.` between two valid lines still parses; the
malformed line is recorded as a diagnostic and the two valid records
survive. -/
theorem parser_recovers_malformed_witness :
    ("age(Person,Age),.").data ∈
      (parse_document [("person(alice).").data, ("age(Person,Age),.").data,
        ("eligible(X) :- person(X).").data]).2 ∧
    (parse_document [("person(alice).").data, ("age(Person,Age),.").data,
        ("eligible(X) :- person(X).").data]).1.map RuleRecord.normalized_text =
      [("person(alice).").data, ("eligible(X) :- person(X).").data] := by
  have h := parser_recovers_malformed [("person(alice).").data, ("age(Person,Age),.").data,
    ("eligible(X) :- person(X).").data]
  exact ⟨h.2.2 (("age(Person,Age),.").data) (by decide) (by decide), by rw [h.1]; decide⟩

/-- Claim C3: for every program and every configured denylist whose baseline
fact set is itself clean of the denylist (as the code's fixed
`basic_legal_facts` are of its fixed `skip_patterns`), the Simplifier's
output contains no line referencing a denylisted predicate; and when the
Facts partition left after removal falls below the configured minimum count,
the fixed baseline fact set is appended, so the simplified program contains
the baseline anchoring facts and is never degenerate. -/
theorem simplifier_denylist (deny baseline prog : List (List Char)) (minFacts : Nat)
    (hb : ∀ b ∈ baseline, matches_deny deny b = false) :
    (∀ l ∈ create_simplified_program deny minFacts baseline prog,
      matches_deny deny l = false) ∧
    (((prog.filter (fun l => !matches_deny deny l)).filter is_fact_line).length < minFacts →
      create_simplified_program deny minFacts baseline prog =
        prog.filter (fun l => !matches_deny deny l) ++ baseline ∧
      ∀ b ∈ baseline, b ∈ create_simplified_program deny minFacts baseline prog) := by
  constructor
  · intro l hl
    rw [create_simplified_program] at hl
    have hkept : ∀ x ∈ prog.filter (fun y => !matches_deny deny y),
        matches_deny deny x = false := by
      intro x hx
      have := (List.mem_filter.mp hx).2
      simpa using this
    split_ifs at hl with hcount
    · rcases List.mem_append.mp hl with hk | hbm
      · exact hkept l hk
      · exact hb l hbm
    · exact hkept l hl
  · intro hcount
    refine ⟨by rw [create_simplified_program, if_pos hcount], ?_⟩
    intro b hbm
    rw [create_simplified_program, if_pos hcount]
    exact List.mem_append_right _ hbm

/-- Witness for C3 at the code's fixed configuration: `skip_patterns` and
`basic_legal_facts`, on a program holding one plain fact and one `blawx_`
line; with minimum count 3 the Facts partition is sparse, the baseline is
appended, and the surviving plain line is denylist-free. -/
theorem simplifier_denylist_witness :
    (∀ b ∈ basic_legal_facts, matches_deny skip_patterns b = false) ∧
    matches_deny skip_patterns (("p(a).").data) = false ∧
    create_simplified_program skip_patterns 3 basic_legal_facts
        [("p(a).").data, ("blawx_during(a,b).").data] =
      [("p(a).").data] ++ basic_legal_facts := by
  have hb : ∀ b ∈ basic_legal_facts, matches_deny skip_patterns b = false := by decide
  have h := simplifier_denylist skip_patterns basic_legal_facts
    [("p(a).").data, ("blawx_during(a,b).").data] 3 hb
  have hsparse : (((([("p(a).").data, ("blawx_during(a,b).").data]).filter
      (fun l => !matches_deny skip_patterns l)).filter is_fact_line).length < 3) := by decide
  refine ⟨hb, ?_, ?_⟩
  · exact h.1 (("p(a).").data) (by rw [(h.2 hsparse).1]; decide)
  · rw [(h.2 hsparse).1]
    rfl

/-- Claim C4: the Program Formatter's output lists all Fact records before
all Rule records, all Rule records before all Abducible records, and all
Abducible records before all Query records (the output is sorted by
`kind_rank`), and within each kind it preserves the records' original
document order (filtering the output by a kind gives exactly the input
filtered by that kind — a stable partition, never re-sorted). -/
theorem formatter_order (rules : List ScaspRule) :
    ((format_scasp_program rules).filter (fun r => r.rule_type == ("fact").data) =
      rules.filter (fun r => r.rule_type == ("fact").data)) ∧
    ((format_scasp_program rules).filter (fun r => r.rule_type == ("rule").data) =
      rules.filter (fun r => r.rule_type == ("rule").data)) ∧
    ((format_scasp_program rules).filter (fun r => r.rule_type == ("abducible").data) =
      rules.filter (fun r => r.rule_type == ("abducible").data)) ∧
    ((format_scasp_program rules).filter (fun r => r.rule_type == ("query").data) =
      rules.filter (fun r => r.rule_type == ("query").data)) ∧
    (format_scasp_program rules).Pairwise (fun a b => kind_rank a ≤ kind_rank b) := by
  have key : ∀ (k1 k2 : List Char), (k1 = k2 → False) → ∀ l : List ScaspRule,
      (l.filter (fun r => r.rule_type == k1)).filter (fun r => r.rule_type == k2) = [] := by
    intro k1 k2 hne l
    rw [List.filter_eq_nil_iff]
    intro r hr
    have h1 : r.rule_type = k1 := by simpa using (List.mem_filter.mp hr).2
    simp [h1]
    intro hc
    exact hne hc
  have same : ∀ (k : List Char) (l : List ScaspRule),
      (l.filter (fun r => r.rule_type == k)).filter (fun r => r.rule_type == k) =
        l.filter (fun r => r.rule_type == k) := by
    intro k l
    exact List.filter_eq_self.mpr (fun a ha => (List.mem_filter.mp ha).2)
  have hrank : ∀ (k : List Char) (n : Nat), kind_rank ⟨k, []⟩ = n →
      ∀ x ∈ rules.filter (fun r => r.rule_type == k), kind_rank x = n := by
    intro k n hk x hx
    have h1 : x.rule_type = k := by simpa using (List.mem_filter.mp hx).2
    rw [show kind_rank x = kind_rank ⟨k, []⟩ by rw [kind_rank, kind_rank, h1], hk]
  refine ⟨?_, ?_, ?_, ?_, ?_⟩
  · simp [format_scasp_program, List.filter_append, same,
      key (("rule").data) (("fact").data) (by decide),
      key (("abducible").data) (("fact").data) (by decide),
      key (("query").data) (("fact").data) (by decide)]
  · simp [format_scasp_program, List.filter_append, same,
      key (("fact").data) (("rule").data) (by decide),
      key (("abducible").data) (("rule").data) (by decide),
      key (("query").data) (("rule").data) (by decide)]
  · simp [format_scasp_program, List.filter_append, same,
      key (("fact").data) (("abducible").data) (by decide),
      key (("rule").data) (("abducible").data) (by decide),
      key (("query").data) (("abducible").data) (by decide)]
  · simp [format_scasp_program, List.filter_append, same,
      key (("fact").data) (("query").data) (by decide),
      key (("rule").data) (("query").data) (by decide),
      key (("abducible").data) (("query").data) (by decide)]
  · have hf := hrank (("fact").data) 0 (by decide)
    have hr := hrank (("rule").data) 1 (by decide)
    have ha := hrank (("abducible").data) 2 (by decide)
    have hq := hrank (("query").data) 3 (by decide)
    rw [format_scasp_program]
    rw [List.append_assoc, List.append_assoc]
    rw [List.pairwise_append]
    refine ⟨List.pairwise_of_forall_mem_list (fun a hha b hhb => by
        rw [hf a hha, hf b hhb]), ?_, ?_⟩
    · rw [List.pairwise_append]
      refine ⟨List.pairwise_of_forall_mem_list (fun a hha b hhb => by
          rw [hr a hha, hr b hhb]), ?_, ?_⟩
      · rw [List.pairwise_append]
        refine ⟨List.pairwise_of_forall_mem_list (fun a hha b hhb => by
            rw [ha a hha, ha b hhb]), ?_, ?_⟩
        · exact List.pairwise_of_forall_mem_list (fun a hha b hhb => by
            rw [hq a hha, hq b hhb])
        · intro a hha b hhb
          rw [ha a hha, hq b hhb]
          omega
      · intro a hha b hhb
        rcases List.mem_append.mp hhb with h2 | h3
        · rw [hr a hha, ha b h2]; omega
        · rw [hr a hha, hq b h3]; omega
    · intro a hha b hhb
      rcases List.mem_append.mp hhb with h2 | h23
      · rw [hf a hha, hr b h2]; omega
      rcases List.mem_append.mp h23 with h3 | h4
      · rw [hf a hha, ha b h3]; omega
      · rw [hf a hha, hq b h4]; omega

/-- Claim C1: for every query, the tier controller attempts its tiers in the
fixed order full → simplified → fallback — the attempt trace is exactly
`[full]`, `[full, simplified]` or `[full, simplified, fallback]`, with the
simplified tier attempted precisely when the full tier failed and the
fallback tier precisely when both engine tiers failed; no tier appears
twice, and the controller always reaches a terminal result (the function is
total). -/
theorem tier_order_invariant (scaspE : List (List Char) → List Char → TierOutcome)
    (minFacts : Nat) (program : List (List Char)) (q : List Char) :
    (((scaspQuery scaspE minFacts program q).1.map Prod.fst = [Tier.full] ∧
        (scaspE program q).success = true) ∨
      ((scaspQuery scaspE minFacts program q).1.map Prod.fst = [Tier.full, Tier.simplified] ∧
        (scaspE program q).success = false ∧
        (scaspE (create_simplified_program skip_patterns minFacts basic_legal_facts program)
          q).success = true) ∨
      ((scaspQuery scaspE minFacts program q).1.map Prod.fst =
          [Tier.full, Tier.simplified, Tier.fallback] ∧
        (scaspE program q).success = false ∧
        (scaspE (create_simplified_program skip_patterns minFacts basic_legal_facts program)
          q).success = false)) ∧
    ((scaspQuery scaspE minFacts program q).1.map Prod.fst).Nodup := by
  rw [scaspQuery]
  by_cases h1 : (scaspE program q).success = true
  · rw [if_pos h1]
    exact ⟨Or.inl ⟨rfl, h1⟩, by simp⟩
  · rw [if_neg h1]
    have h1f : (scaspE program q).success = false := by
      cases hc : (scaspE program q).success
      · rfl
      · exact absurd hc h1
    by_cases h2 : (scaspE (create_simplified_program skip_patterns minFacts
        basic_legal_facts program) q).success = true
    · rw [if_pos h2]
      exact ⟨Or.inr (Or.inl ⟨rfl, h1f, h2⟩), by simp⟩
    · rw [if_neg h2]
      have h2f : (scaspE (create_simplified_program skip_patterns minFacts
          basic_legal_facts program) q).success = false := by
        cases hc : (scaspE (create_simplified_program skip_patterns minFacts
            basic_legal_facts program) q).success
        · rfl
        · exact absurd hc h2
      exact ⟨Or.inr (Or.inr ⟨rfl, h1f, h2f⟩), by simp⟩

/-- Counterexample for C2: it is false that, whenever the full and
simplified tiers both fail, the third tier is a Backend Adapter invocation
of the fallback engine on the simplified program — with an always-failing
engine the last attempt in the trace is the heuristic
`_create_fallback_response`, not an engine call. -/
theorem tier3_engine_counterexample :
    ¬ (∀ (scaspE : List (List Char) → List Char → TierOutcome) (minFacts : Nat)
        (program : List (List Char)) (q : List Char),
        (scaspE program q).success = false →
        (scaspE (create_simplified_program skip_patterns minFacts basic_legal_facts program)
          q).success = false →
        ((scaspQuery scaspE minFacts program q).1.map Prod.snd).getLast? =
          some (TierAction.engineCall EngineId.prolog
            (create_simplified_program skip_patterns minFacts basic_legal_facts program))) := by
  intro h
  exact absurd (h fail_engine 0 prog0 q0 rfl rfl) (by decide)

/-- Claim C2 (amended): when the full and simplified tiers both fail, the
third tier is the heuristic `_create_fallback_response` computed from the
query text — no Backend Adapter invocation — and the query's result is that
heuristic response; in the two-tier variant of `query`, the fallback engine
is invoked on the full program, not the simplified one. -/
theorem tier3_is_heuristic (scaspE prologE : List (List Char) → List Char → TierOutcome)
    (minFacts : Nat) (program : List (List Char)) (q : List Char)
    (h1 : (scaspE program q).success = false)
    (h2 : (scaspE (create_simplified_program skip_patterns minFacts basic_legal_facts program)
      q).success = false) :
    ((scaspQuery scaspE minFacts program q).1.map Prod.snd).getLast? =
      some (TierAction.heuristic q program) ∧
    (scaspQuery scaspE minFacts program q).2 = create_fallback_response q program ∧
    (scaspQueryV2 scaspE prologE true program q).1 =
      [(EngineId.scasp, program), (EngineId.prolog, program)] := by
  rw [scaspQuery, scaspQueryV2]
  rw [if_neg (by simp [h1]), if_neg (by simp [h2]), if_neg (by simp [h1]), if_pos rfl]
  exact ⟨rfl, rfl, rfl⟩

/-- Witness for the amended C2 at the always-failing engine on the test
program and query. -/
theorem tier3_is_heuristic_witness :
    ((scaspQuery fail_engine 0 prog0 q0).1.map Prod.snd).getLast? =
      some (TierAction.heuristic q0 prog0) ∧
    (scaspQuery fail_engine 0 prog0 q0).2 = create_fallback_response q0 prog0 ∧
    (scaspQueryV2 fail_engine fail_engine true prog0 q0).1 =
      [(EngineId.scasp, prog0), (EngineId.prolog, prog0)] :=
  tier3_is_heuristic fail_engine fail_engine 0 prog0 q0 rfl rfl

/-- Counterexample for C9: it is false that a query whose tiers all fail
returns the failure of the last tier attempted as its error — with an engine
that always fails with a timeout message and a query hitting no heuristic
pattern, the returned error is the fixed generic message, not the engine's
timeout error. -/
theorem last_tier_error_counterexample :
    ¬ (∀ (scaspE : List (List Char) → List Char → TierOutcome) (minFacts : Nat)
        (program : List (List Char)) (q : List Char),
        (scaspE program q).success = false →
        (scaspE (create_simplified_program skip_patterns minFacts basic_legal_facts program)
          q).success = false →
        (scaspQuery scaspE minFacts program q).2.success = false ∧
        (scaspQuery scaspE minFacts program q).2.answers = [] ∧
        (scaspQuery scaspE minFacts program q).2.error_message =
          (scaspE (create_simplified_program skip_patterns minFacts basic_legal_facts program)
            q).error_message) := by
  intro h
  exact absurd (h fail_engine 0 prog0 q0 rfl rfl).2.2 (by decide)

/-- Claim C9 (amended): when all tiers fail (both engine attempts fail and
the query matches no heuristic pattern), the result has success = false, an
empty answers sequence, and the fixed generic error message — the specific
failure of the last engine attempt is not propagated; and for every query
run against an engine whose outcomes carry an error exactly when they fail,
the result's error is present exactly when its success is false. -/
theorem all_tiers_fail_generic (scaspE : List (List Char) → List Char → TierOutcome)
    (minFacts : Nat) (program : List (List Char)) (q : List Char)
    (hwf : ∀ p g, ((scaspE p g).error_message = none ↔ (scaspE p g).success = true))
    (h1 : (scaspE program q).success = false)
    (h2 : (scaspE (create_simplified_program skip_patterns minFacts basic_legal_facts program)
      q).success = false)
    (h3 : health_match (lowerL q) = false)
    (h4 : access_match (lowerL q) = false) :
    (scaspQuery scaspE minFacts program q).2 =
      TierOutcome.mk false [] (some unable_message) ∧
    ∀ p2 q2, ((scaspQuery scaspE minFacts p2 q2).2.error_message = none ↔
      (scaspQuery scaspE minFacts p2 q2).2.success = true) := by
  constructor
  · rw [scaspQuery]
    rw [if_neg (by simp [h1]), if_neg (by simp [h2])]
    rw [create_fallback_response]
    rw [if_neg (by simp [h3]), if_neg (by simp [h4])]
  · intro p2 q2
    rw [scaspQuery]
    by_cases hb1 : (scaspE p2 q2).success = true
    · rw [if_pos hb1]
      exact hwf p2 q2
    · rw [if_neg hb1]
      by_cases hb2 : (scaspE (create_simplified_program skip_patterns minFacts
          basic_legal_facts p2) q2).success = true
      · rw [if_pos hb2]
        exact hwf _ q2
      · rw [if_neg hb2]
        rw [create_fallback_response]
        split_ifs with hh ha
        · simp [health_canada_response]
        · simp [general_access_response]
        · simp

/-- Witness for the amended C9 at the always-failing timeout engine and a
query with no heuristic match: the result is the generic failure. -/
theorem all_tiers_fail_generic_witness :
    health_match (lowerL q0) = false ∧ access_match (lowerL q0) = false ∧
    (scaspQuery fail_engine 0 prog0 q0).2 =
      TierOutcome.mk false [] (some unable_message) :=
  ⟨by decide, by decide,
    (all_tiers_fail_generic fail_engine 0 prog0 q0
      (fun p g => by rw [fail_engine]; simp) rfl rfl (by decide) (by decide)).1⟩

/-- Counterexample for C7: it is false that output matching neither
dialect's expected shape yields zero Answers together with an explicit
UnparsableOutput error — `_parse_prolog_output` returns only an answer list
and no error value whatsoever (its result paired with the absent error
`none` never equals the claimed interpreter's result on unmatched output,
which carries `some UnparsableOutput`). -/
theorem unparsable_error_counterexample :
    ¬ (∀ out : List Char,
        (parse_prolog_output out, (none : Option ScaspError)) =
          interpret_fallback_claimed out) := by
  intro h
  exact absurd (congrArg Prod.snd (h (("ERROR: undefined procedure").data))) (by decide)

/-- Claim C7 (amended): for every raw engine output that does not contain
the fallback dialect's success markers, the interpreter returns zero
Answers and produces no error value — an unmatched output is
indistinguishable from an empty result; no UnparsableOutput error exists in
the code. -/
theorem unmatched_output_silent (out : List Char)
    (h1 : containsSub (("true").data) (lowerL out) = false)
    (h2 : containsSub (("yes").data) (lowerL out) = false) :
    parse_prolog_output out = [] := by
  rw [parse_prolog_output, if_neg]
  simp [h1, h2]

/-- Witness for the amended C7 at an error-text output matching neither
success marker. -/
theorem unmatched_output_silent_witness :
    containsSub (("true").data) (lowerL (("ERROR: undefined procedure").data)) = false ∧
    parse_prolog_output (("ERROR: undefined procedure").data) = [] :=
  ⟨by decide, unmatched_output_silent (("ERROR: undefined procedure").data)
    (by decide) (by decide)⟩

/-- Claim C8: under a well-formed confidence configuration, every Answer the
Result Interpreter returns — from the primary dialect parser or the fallback
dialect parser — has confidence in [0, 1]; every fallback-dialect Answer has
confidence (the fixed 0.8) at most the primary engine's minimum achievable
confidence, and hence at most the confidence of any primary-dialect
Answer. -/
theorem interpreter_confidence (cfg : ConfidenceConfig) (hw : cfg.wellFormed) :
    (∀ out a, a ∈ parse_scasp_output cfg out → 0 ≤ a.confidence ∧ a.confidence ≤ 1) ∧
    (∀ out a, a ∈ parse_prolog_output out → 0 ≤ a.confidence ∧ a.confidence ≤ 1) ∧
    (∀ out a, a ∈ parse_prolog_output out → a.confidence ≤ cfg.primaryMin) ∧
    (∀ out a out2 b, a ∈ parse_prolog_output out → b ∈ parse_scasp_output cfg out2 →
      a.confidence ≤ b.confidence) := by
  obtain ⟨hp0, hpb, hb1, hs0, hfb⟩ := hw
  have hscasp : ∀ out b, b ∈ parse_scasp_output cfg out →
      b.confidence = calculate_confidence cfg b.justification.headI ∧
      cfg.primaryMin ≤ b.confidence ∧ 0 ≤ b.confidence ∧ b.confidence ≤ 1 := by
    intro out b hb
    rw [parse_scasp_output] at hb
    obtain ⟨blk, _, rfl⟩ := List.mem_map.mp hb
    refine ⟨rfl, le_max_left _ _, le_trans hp0 (le_max_left _ _), ?_⟩
    rw [calculate_confidence]
    apply max_le (le_trans hpb hb1)
    have : cfg.base - cfg.step * (countSub uncertainty_marker blk : ℚ) ≤ cfg.base := by
      have := mul_nonneg hs0 (by positivity : (0 : ℚ) ≤ (countSub uncertainty_marker blk : ℚ))
      linarith
    linarith
  have hprolog : ∀ out a, a ∈ parse_prolog_output out → a.confidence = (4 : ℚ) / 5 := by
    intro out a ha
    rw [parse_prolog_output] at ha
    split_ifs at ha
    · rw [List.mem_singleton.mp ha]
      rfl
    · exact absurd ha (by simp)
  refine ⟨fun out a ha => ⟨(hscasp out a ha).2.2.1, (hscasp out a ha).2.2.2⟩, ?_, ?_, ?_⟩
  · intro out a ha
    rw [hprolog out a ha]
    norm_num
  · intro out a ha
    rw [hprolog out a ha]
    exact hfb
  · intro out a out2 b ha hb
    rw [hprolog out a ha]
    exact le_trans hfb (hscasp out2 b hb).2.1

/-- Witness for C8 at the concrete configuration `cfg0` and the concrete
fallback-dialect answer produced on the output `true`. -/
theorem interpreter_confidence_witness :
    cfg0.wellFormed ∧ 0 ≤ prolog_success_answer.confidence ∧
      prolog_success_answer.confidence ≤ 1 := by
  have hw : cfg0.wellFormed := by
    refine ⟨?_, ?_, ?_, ?_, ?_⟩ <;> norm_num [cfg0]
  have hmem : prolog_success_answer ∈ parse_prolog_output (("true").data) := by
    rw [show parse_prolog_output (("true").data) = [prolog_success_answer] from rfl]
    exact List.mem_singleton.mpr rfl
  exact ⟨hw, (interpreter_confidence cfg0 hw).2.1 (("true").data) prolog_success_answer hmem⟩

/-- Counterexample for C10: it is false that any input whose stripped
content lacks a string top-level `answer` field but contains a
regex-extractable `"answer":` fragment yields just that answer text — for
the valid-JSON input `\x7b"x": \x7b"answer": "hi"\x7d\x7d` `JSON.parse`
succeeds, no exception is thrown, the regex path is never reached, and the
code returns the entire input as the answer, while the claim's reading
returns `hi`. -/
theorem response_parser_counterexample :
    ¬ (∀ content : List Char, parseResponseContent content = parse_response_claimed content) := by
  intro h
  exact absurd (congrArg ParsedResponse.answer (h jsonS0)) (by decide)

/-- Claim C10 (amended): `parseResponseContent` is total, and for every
input string: if the markdown-stripped content parses as JSON as a truthy
value with a string `answer` field, the structured result is returned with
absent list fields defaulted to empty arrays; otherwise, if `JSON.parse`
threw and an `"answer":` fragment is regex-extractable, just that answer
text is returned; otherwise — including when the content parses as JSON
without a string `answer` field — the entire input string is returned as
the answer. -/
theorem response_parser_branches (content : List Char) :
    parseResponseContent content = parse_response_amended content := by
  rw [parseResponseContent, parse_response_amended]
  cases hj : jsonParse (clean_content content) with
  | none =>
    simp only [hj]
    cases hr : regex_answer content with
    | some cap =>
      have hc := regex_answer_contains content cap hr
      rw [if_pos (Or.inl hc)]
    | none =>
      simp only [hr]
      split_ifs <;> rfl
  | some parsed =>
    simp only [hj]
    by_cases ht : truthy parsed = true
    · cases hg : jGet parsed (("answer").data) with
      | none => simp only [hg, ht, if_true]
      | some j =>
        cases j with
        | str a => simp only [hg, ht, if_true]
        | null => simp only [hg, ht, if_true]
        | bool b => simp only [hg, ht, if_true]
        | num qq => simp only [hg, ht, if_true]
        | arr es => simp only [hg, ht, if_true]
        | obj fs => simp only [hg, ht, if_true]
    · have htf : truthy parsed = false := by
        cases hb : truthy parsed
        · rfl
        · exact absurd hb ht
      have hg := truthy_false_jGet parsed (("answer").data) htf
      simp only [hg, htf, if_neg, Bool.false_eq_true, if_false]
